import Mathlib

/-!
Verification development for the conversation-agent program (`speech.py`).

The file gives a shallow embedding of the program's pure core:

* a model of Python's `json.loads` over a `Json` value type,
* the file-directive writer `WriteJsonFile` (file system and console
  effects made explicit, uncaught Python exceptions modelled as `Except`),
* the brace scanner and scrubber `HandleFileCreationString`,
* the termination check `CheckForTerminate`,
* the Anthropic client wrapper (`MakeAnthropicAPICall`, `AddUserMessage`,
  `AddAgentMessage`) and one iteration of the main loop.

Strings are modelled as Lean `String` (a sequence of unicode scalar
values), matching Python `str` iteration over code points for the inputs
the program handles.
-/

/-- Json values as produced by the model of Python's `json.loads`.
Numbers keep their source lexeme: the program only ever inspects a parsed
number for Python truthiness, never for its numeric value.  Objects keep
their members in source order; duplicate keys are resolved by
`jsonSubscript`, which (like a Python dict built by the parser) lets the
last binding win. -/
inductive Json where
  | null : Json
  | bool (b : Bool) : Json
  | num (lexeme : String) : Json
  | str (s : String) : Json
  | arr (elems : List Json) : Json
  | obj (members : List (String × Json)) : Json

/-- Whitespace accepted between JSON tokens (Python `json` accepts exactly
space, tab, newline and carriage return). -/
def jsonWs (c : Char) : Bool :=
  c = ' ' ∨ c = '\t' ∨ c = '\n' ∨ c = '\r'

/-- Drop leading JSON whitespace. -/
def skipWs : List Char → List Char
  | [] => []
  | c :: rest => if jsonWs c then skipWs rest else c :: rest

/-- Value of one hexadecimal digit, if the character is one. -/
def jsonHexVal (c : Char) : Option Nat :=
  if '0' ≤ c ∧ c ≤ '9' then some (c.toNat - '0'.toNat)
  else if 'a' ≤ c ∧ c ≤ 'f' then some (c.toNat - 'a'.toNat + 10)
  else if 'A' ≤ c ∧ c ≤ 'F' then some (c.toNat - 'A'.toNat + 10)
  else none

/-- Translation of the simple (single-character) JSON string escapes. -/
def jsonEscChar (e : Char) : Option Char :=
  if e = '"' then some '"'
  else if e = '\\' then some '\\'
  else if e = '/' then some '/'
  else if e = 'b' then some (Char.ofNat 8)
  else if e = 'f' then some (Char.ofNat 12)
  else if e = 'n' then some '\n'
  else if e = 'r' then some '\r'
  else if e = 't' then some '\t'
  else none

/-- Body of a JSON string literal, after the opening quote: returns the
decoded characters and the input after the closing quote, or `none` on an
unterminated string, an invalid escape, or a raw control character
(Python's strict mode rejects those).  Each `\\uXXXX` escape is decoded
through `Char.ofNat`; CPython's combining of escaped surrogate pairs into
one astral-plane character (and its lone-surrogate code units, which a
Lean `Char` cannot hold) is not modelled — no parse success or failure of
this program's inputs depends on it. -/
def jsonStringBody : List Char → Option (List Char × List Char)
  | [] => none
  | '"' :: rest => some ([], rest)
  | '\\' :: 'u' :: a :: b :: c :: d :: rest =>
    (match jsonHexVal a, jsonHexVal b, jsonHexVal c, jsonHexVal d with
     | some va, some vb, some vc, some vd =>
       let hi := ((va * 16 + vb) * 16 + vc) * 16 + vd
       (fun p => (Char.ofNat hi :: p.1, p.2)) <$> jsonStringBody rest
     | _, _, _, _ => none)
  | '\\' :: e :: rest =>
    (match jsonEscChar e with
     | some ch => (fun p => (ch :: p.1, p.2)) <$> jsonStringBody rest
     | none => none)
  | ['\\'] => none
  | c :: rest =>
    if c.toNat < 0x20 then none
    else (fun p => (c :: p.1, p.2)) <$> jsonStringBody rest

/-- Longest prefix of ASCII digits, with the remainder. -/
def jsonTakeDigits : List Char → List Char × List Char
  | [] => ([], [])
  | c :: rest =>
    if c.isDigit then
      let p := jsonTakeDigits rest
      (c :: p.1, p.2)
    else ([], c :: rest)

/-- Optional fraction and exponent parts of a JSON number, mirroring the
regex groups `(\.[0-9]+)?` and `([eE][-+]?[0-9]+)?` used by Python's
`json` scanner: a group that cannot match completely consumes nothing. -/
def jsonFracExp (l : List Char) : List Char × List Char :=
  let fr :=
    match l with
    | '.' :: r =>
      (match jsonTakeDigits r with
       | ([], _) => (([] : List Char), l)
       | (ds, r2) => ('.' :: ds, r2))
    | _ => ([], l)
  let ex :=
    match fr.2 with
    | 'e' :: '+' :: r2 =>
      (match jsonTakeDigits r2 with
       | ([], _) => (([] : List Char), fr.2)
       | (ds, r3) => ('e' :: '+' :: ds, r3))
    | 'e' :: '-' :: r2 =>
      (match jsonTakeDigits r2 with
       | ([], _) => (([] : List Char), fr.2)
       | (ds, r3) => ('e' :: '-' :: ds, r3))
    | 'e' :: r2 =>
      (match jsonTakeDigits r2 with
       | ([], _) => (([] : List Char), fr.2)
       | (ds, r3) => ('e' :: ds, r3))
    | 'E' :: '+' :: r2 =>
      (match jsonTakeDigits r2 with
       | ([], _) => (([] : List Char), fr.2)
       | (ds, r3) => ('E' :: '+' :: ds, r3))
    | 'E' :: '-' :: r2 =>
      (match jsonTakeDigits r2 with
       | ([], _) => (([] : List Char), fr.2)
       | (ds, r3) => ('E' :: '-' :: ds, r3))
    | 'E' :: r2 =>
      (match jsonTakeDigits r2 with
       | ([], _) => (([] : List Char), fr.2)
       | (ds, r3) => ('E' :: ds, r3))
    | _ => ([], fr.2)
  (fr.1 ++ ex.1, ex.2)

/-- Lexeme of a JSON number (`-?(0|[1-9][0-9]*)(\.[0-9]+)?([eE][-+]?[0-9]+)?`),
with the remaining input; `none` when no number starts here. -/
def jsonNumberLexeme : List Char → Option (List Char × List Char)
  | '-' :: '0' :: r =>
    let p := jsonFracExp r
    some ('-' :: '0' :: p.1, p.2)
  | '-' :: c :: r =>
    if c.isDigit then
      let d := jsonTakeDigits r
      let p := jsonFracExp d.2
      some ('-' :: c :: (d.1 ++ p.1), p.2)
    else none
  | '0' :: r =>
    let p := jsonFracExp r
    some ('0' :: p.1, p.2)
  | c :: r =>
    if c.isDigit then
      let d := jsonTakeDigits r
      let p := jsonFracExp d.2
      some (c :: (d.1 ++ p.1), p.2)
    else none
  | [] => none

mutual

/-- Parse one JSON value (fuel-indexed model of Python's recursive `json`
scanner; `loads` supplies more fuel than any input can consume).  Error
messages follow CPython's texts, without position suffixes and without
quoted punctuation. -/
def jsonParseValue : Nat → List Char → Except String (Json × List Char)
  | 0, _ => Except.error ("Expecting value")
  | Nat.succ fuel, l =>
    match skipWs l with
    | [] => Except.error ("Expecting value")
    | c :: rest =>
      if c = '"' then
        match jsonStringBody rest with
        | some (cs, r) => Except.ok (Json.str (String.mk cs), r)
        | none => Except.error ("Unterminated string or invalid string contents")
      else if c = '\x7b' then
        match skipWs rest with
        | '\x7d' :: r => Except.ok (Json.obj [], r)
        | l1 => jsonParseMembers fuel l1 []
      else if c = '[' then
        match skipWs rest with
        | ']' :: r => Except.ok (Json.arr [], r)
        | l1 => jsonParseElems fuel l1 []
      else if c = 't' then
        match rest with
        | 'r' :: 'u' :: 'e' :: r => Except.ok (Json.bool true, r)
        | _ => Except.error ("Expecting value")
      else if c = 'f' then
        match rest with
        | 'a' :: 'l' :: 's' :: 'e' :: r => Except.ok (Json.bool false, r)
        | _ => Except.error ("Expecting value")
      else if c = 'n' then
        match rest with
        | 'u' :: 'l' :: 'l' :: r => Except.ok (Json.null, r)
        | _ => Except.error ("Expecting value")
      else if c = 'N' then
        match rest with
        | 'a' :: 'N' :: r => Except.ok (Json.num ("NaN"), r)
        | _ => Except.error ("Expecting value")
      else if c = 'I' then
        match rest with
        | 'n' :: 'f' :: 'i' :: 'n' :: 'i' :: 't' :: 'y' :: r =>
          Except.ok (Json.num ("Infinity"), r)
        | _ => Except.error ("Expecting value")
      else if c = '-' then
        match rest with
        | 'I' :: 'n' :: 'f' :: 'i' :: 'n' :: 'i' :: 't' :: 'y' :: r =>
          Except.ok (Json.num ("-Infinity"), r)
        | _ =>
          match jsonNumberLexeme (c :: rest) with
          | some (lex, r) => Except.ok (Json.num (String.mk lex), r)
          | none => Except.error ("Expecting value")
      else
        match jsonNumberLexeme (c :: rest) with
        | some (lex, r) => Except.ok (Json.num (String.mk lex), r)
        | none => Except.error ("Expecting value")

/-- Members of a JSON object, after the opening brace and any leading
whitespace, when the object is not empty. -/
def jsonParseMembers : Nat → List Char → List (String × Json) →
    Except String (Json × List Char)
  | 0, _, _ => Except.error ("Expecting property name enclosed in double quotes")
  | Nat.succ fuel, l, acc =>
    match l with
    | '"' :: r0 =>
      (match jsonStringBody r0 with
       | none => Except.error ("Unterminated string or invalid string contents")
       | some (key, r1) =>
         match skipWs r1 with
         | ':' :: r2 =>
           (match jsonParseValue fuel r2 with
            | Except.error e => Except.error e
            | Except.ok (v, r3) =>
              let acc2 := acc ++ [(String.mk key, v)]
              match skipWs r3 with
              | ',' :: r4 => jsonParseMembers fuel (skipWs r4) acc2
              | '\x7d' :: r4 => Except.ok (Json.obj acc2, r4)
              | _ => Except.error ("Expecting comma delimiter"))
         | _ => Except.error ("Expecting colon delimiter"))
    | _ => Except.error ("Expecting property name enclosed in double quotes")

/-- Elements of a JSON array, after the opening bracket and any leading
whitespace, when the array is not empty. -/
def jsonParseElems : Nat → List Char → List Json →
    Except String (Json × List Char)
  | 0, _, _ => Except.error ("Expecting value")
  | Nat.succ fuel, l, acc =>
    match jsonParseValue fuel l with
    | Except.error e => Except.error e
    | Except.ok (v, r1) =>
      let acc2 := acc ++ [v]
      match skipWs r1 with
      | ',' :: r2 => jsonParseElems fuel r2 acc2
      | ']' :: r2 => Except.ok (Json.arr acc2, r2)
      | _ => Except.error ("Expecting comma delimiter")

end

/-- Model of Python's `json.loads`: parse one value, then require only
whitespace to remain (CPython's Extra data error otherwise). -/
def loads (s : String) : Except String Json :=
  match jsonParseValue (s.data.length + 1) s.data with
  | Except.error e => Except.error e
  | Except.ok (v, rest) =>
    match skipWs rest with
    | [] => Except.ok v
    | _ => Except.error ("Extra data")

/-- Errors a Python exception would raise out of the modelled functions.
Only `json.JSONDecodeError` is caught by the source; a `KeyError` from a
missing dict key, or a `TypeError` from subscripting a non-dict or from
passing a non-string to `open`/`write`, propagates to the caller. -/
inductive PyErr where
  | keyError (key : String) : PyErr
  | typeError : PyErr
deriving DecidableEq

/-- In-memory model of the files the program writes: an association of
path to current content. -/
structure FS where
  files : List (String × String)
deriving DecidableEq

/-- Model of `open(path, "w")` followed by `write(content)`: the new
content replaces any previous content at that path in full. -/
def fsWrite (fs : FS) (path content : String) : FS :=
  FS.mk ((path, content) :: fs.files.filter (fun p => p.1 != path))

/-- Current content at a path, if any file was written there. -/
def fsRead (fs : FS) (path : String) : Option String :=
  (fs.files.find? (fun p => p.1 == path)).map (fun p => p.2)

/-- Observable effects of the program: console prints, file writes, and
synthesized speech playback. -/
inductive Event where
  | printed (line : String) : Event
  | wrote (path content : String) : Event
  | spoke (text : String) : Event
deriving DecidableEq

/-- Whether an effect is a file write. -/
def Event.isWrite : Event → Bool
  | Event.wrote _ _ => true
  | _ => false

/-- Python truthiness of a parsed numeral, decided on its lexeme: a JSON
number is falsy iff it denotes zero, i.e. iff its mantissa has a digit
and no nonzero digit (the exponent cannot change that; IEEE underflow of
extreme exponents to zero is not modelled).  The lexemes NaN, Infinity
and -Infinity contain no digit and are truthy, as in Python. -/
def jsonNumIsZero (lexeme : String) : Bool :=
  let m := lexeme.data.takeWhile (fun c => !(c == 'e' || c == 'E'))
  m.any (fun c => c.isDigit) && m.all (fun c => !c.isDigit || c == '0')

/-- Python truthiness test `not x` applied to a parsed JSON value. -/
def pyFalsy : Json → Bool
  | Json.null => true
  | Json.bool b => !b
  | Json.num lexeme => jsonNumIsZero lexeme
  | Json.str s => s.isEmpty
  | Json.arr elems => elems.isEmpty
  | Json.obj members => members.isEmpty

/-- Python subscript `value[key]` on a parsed JSON value: a dict lookup
where the last binding of a duplicated key wins (as in the dict Python's
parser builds), a `KeyError` when the key is absent, and a `TypeError`
when the value is not a dict. -/
def jsonSubscript (v : Json) (key : String) : Except PyErr Json :=
  match v with
  | Json.obj members =>
    (match (members.filter (fun p => p.1 == key)).getLast? with
     | some p => Except.ok p.2
     | none => Except.error (PyErr.keyError key))
  | _ => Except.error (PyErr.typeError)

/-- Model of `WriteJsonFile` (speech.py lines 118-141).  On a JSON parse
failure the source catches the exception and prints two diagnostic lines;
on a falsy `file` or `text` field it prints a diagnostic and skips the
write (Python's `or` short-circuits, so `text` is not even looked up when
`file` is falsy); otherwise it writes the content to the named path.  A
missing key raises `KeyError` — only `json.JSONDecodeError` is caught —
and a non-string truthy operand of `open`/`write` raises `TypeError`
(CPython's acceptance of a bare `int` as a file descriptor is not
modelled; no block this program's claims reach produces one).  OS-level
I/O failures of `open` are outside the model. -/
def WriteJsonFile (string : String) (fs : FS) : Except PyErr (FS × List Event) :=
  match loads string with
  | Except.error e =>
    Except.ok (fs, [Event.printed ("Malformed JSON: " ++ string), Event.printed e])
  | Except.ok f =>
    match jsonSubscript f ("file") with
    | Except.error err => Except.error err
    | Except.ok vfile =>
      if pyFalsy vfile then Except.ok (fs, [Event.printed ("Wrong fields in JSON")])
      else
        match jsonSubscript f ("text") with
        | Except.error err => Except.error err
        | Except.ok vtext =>
          if pyFalsy vtext then Except.ok (fs, [Event.printed ("Wrong fields in JSON")])
          else
            match vfile, vtext with
            | Json.str path, Json.str content =>
              Except.ok (fsWrite fs path content, [Event.wrote path content])
            | _, _ => Except.error (PyErr.typeError)

/-- Index pairs of the candidate blocks found by the linear scan of
`HandleFileCreationString` (speech.py lines 155-176): `idx` is the
position of the head of the remaining input, `in_json` and `start_idx`
are the loop's state.  A pair `(a, b)` records a block opened by the
brace at position `a` and closed by the brace at position `b`. -/
def ScanAux : Nat → Bool → Nat → List Char → List (Nat × Nat)
  | _, _, _, [] => []
  | idx, in_json, start_idx, value :: rest =>
    if in_json = false ∧ value = '\x7b' then ScanAux (idx + 1) true idx rest
    else if in_json = true ∧ value = '\x7d' then
      (start_idx, idx) :: ScanAux (idx + 1) false start_idx rest
    else ScanAux (idx + 1) in_json start_idx rest

/-- Blocks found in a whole input string, as index pairs. -/
def ScanPairs (s : String) : List (Nat × Nat) := ScanAux 0 false 0 s.data

/-- Python slice `s[a : b+1]` on code points. -/
def sliceIncl (s : List Char) (a b : Nat) : List Char :=
  (s.drop a).take (b + 1 - a)

/-- Candidate block substrings (`json_content = string[start_idx:(idx+1)]`),
in the order the scan finds them. -/
def ScanBlocks (s : String) : List String :=
  (ScanPairs s).map (fun p => String.mk (sliceIncl s.data p.1 p.2))

/-- One pass of Python's `str.replace(old, "")` over a character list:
remove the leftmost occurrence of the pattern, continue scanning after
it, and never re-examine already-produced output.  With an empty pattern
and empty replacement Python returns the string unchanged, as here. -/
def pyReplaceAux (pat : List Char) : List Char → List Char
  | [] => []
  | c :: rest =>
    if pat ≠ [] ∧ pat.isPrefixOf (c :: rest) then
      pyReplaceAux pat (rest.drop (pat.length - 1))
    else c :: pyReplaceAux pat rest
termination_by l => l.length
decreasing_by all_goals (simp only [List.length_cons, List.length_drop]; omega)

/-- Fuel-indexed computation of the same single pass; the fuel is a Lean
artifact that makes the function reduce inside the kernel, and
`pyReplaceFuel_eq` shows it agrees with `pyReplaceAux` whenever the fuel
covers the input length. -/
def pyReplaceFuel (pat : List Char) : Nat → List Char → List Char
  | 0, l => l
  | _ + 1, [] => []
  | f + 1, c :: rest =>
    if pat ≠ [] ∧ pat.isPrefixOf (c :: rest) then
      pyReplaceFuel pat f (rest.drop (pat.length - 1))
    else c :: pyReplaceFuel pat f rest

/-- Python's `s.replace(pat, "")`. -/
def pyReplace (s pat : String) : String :=
  String.mk (pyReplaceFuel pat.data s.data.length s.data)

/-- Process the found blocks in order with `WriteJsonFile`, threading the
file system and collecting effects; an uncaught exception aborts the
remaining blocks, as in Python. -/
def processBlocks : List String → FS → Except PyErr (FS × List Event)
  | [], fs => Except.ok (fs, [])
  | b :: rest, fs =>
    match WriteJsonFile b fs with
    | Except.error err => Except.error err
    | Except.ok (fs1, ev1) =>
      match processBlocks rest fs1 with
      | Except.error err => Except.error err
      | Except.ok (fs2, ev2) => Except.ok (fs2, ev1 ++ ev2)

/-- Model of `HandleFileCreationString` (speech.py lines 144-183): scan
the input for candidate blocks, feed each to `WriteJsonFile` in the order
found, then remove every found block substring from the text with
`str.replace`.  In the source the writes happen during the scan and the
replacements after it; the scan never reads the file system, so
separating the two phases is equivalent. -/
def HandleFileCreationString (string : String) (fs : FS) :
    Except PyErr (String × FS × List Event) :=
  match processBlocks (ScanBlocks string) fs with
  | Except.error err => Except.error err
  | Except.ok (fs1, evs) =>
    Except.ok ((ScanBlocks string).foldl (fun acc b => pyReplace acc b) string,
      fs1, evs)

/-- Python's substring test `pat in s`, scanning every suffix. -/
def strContains (pat : List Char) : List Char → Bool
  | [] => pat.isEmpty
  | c :: rest => pat.isPrefixOf (c :: rest) || strContains pat rest

/-- The fixed termination phrase of the agent. -/
def terminationPhrase : String := "It was good talking with you."

/-- Model of `CheckForTerminate` (speech.py lines 186-196): a literal
substring test. -/
def CheckForTerminate (string : String) : Bool :=
  strContains terminationPhrase.data string.data

/-- Display name of the assistant (`AGENT_NAME`). -/
def AGENT_NAME : String := "John"

/-- Model of `PrintAgent` (speech.py lines 199-206). -/
def PrintAgent (string : String) : Event :=
  Event.printed (AGENT_NAME ++ " says: \n \"" ++ string ++ "\" \n")

/-- Model of `PrintUser` (speech.py lines 209-216). -/
def PrintUser (string : String) : Event :=
  Event.printed ("User says: \n \"" ++ string ++ "\" \n")

/-- One content item of a conversation-log entry, the dict
`type: "text", text: ...` the source builds. -/
structure ContentItem where
  type : String
  text : String
deriving DecidableEq

/-- One entry of the conversation log: a role-tagged list of content
items. -/
structure Message where
  role : String
  content : List ContentItem
deriving DecidableEq

/-- State of `AnthropicModelInterface`: the system prompt loaded at
startup and the mutable conversation log.  The API key and network
client are held by the external collaborator and carry no modelled
state. -/
structure AnthropicModelInterface where
  system_prompt : String
  conversation_log : List Message
deriving DecidableEq

/-- Model of `AddUserMessage` (speech.py lines 89-101): append one user
turn at the tail of the log. -/
def AddUserMessage (iface : AnthropicModelInterface) (text : String) :
    AnthropicModelInterface :=
  AnthropicModelInterface.mk iface.system_prompt
    (iface.conversation_log ++ [Message.mk ("user") [ContentItem.mk ("text") text]])

/-- Model of `AddAgentMessage` (speech.py lines 103-115): append one
assistant turn at the tail of the log. -/
def AddAgentMessage (iface : AnthropicModelInterface) (text : String) :
    AnthropicModelInterface :=
  AnthropicModelInterface.mk iface.system_prompt
    (iface.conversation_log ++ [Message.mk ("assistant") [ContentItem.mk ("text") text]])

/-- The three failure classes of the external API call that the source
recognizes. -/
inductive APIException where
  | apiConnectionError (cause : String) : APIException
  | rateLimitError : APIException
  | apiStatusError (status_code : Nat) (response : String) : APIException
deriving DecidableEq

/-- Outcome of one external `client.messages.create` call, chosen by the
collaborator: the reply text, or one of the recognized exceptions. -/
inductive APIOutcome where
  | success (text : String) : APIOutcome
  | raises (e : APIException) : APIOutcome
deriving DecidableEq

/-- The external call itself: returns `message.content[0].text` on
success or raises one of the three exception classes. -/
def anthropicMessagesCreate : APIOutcome → Except APIException String
  | APIOutcome.success text => Except.ok text
  | APIOutcome.raises e => Except.error e

/-- Model of `MakeAnthropicAPICall` (speech.py lines 57-87): one blocking
call to the external API, parametrized by the collaborator's outcome.
Each of the three recognized failure classes is caught, diagnostics are
printed, and the empty string is returned; no recognized failure
propagates to the caller. -/
def MakeAnthropicAPICall (outcome : APIOutcome) : String × List Event :=
  match anthropicMessagesCreate outcome with
  | Except.ok text => (text, [])
  | Except.error (APIException.apiConnectionError cause) =>
    ("", [Event.printed ("The server could not be reached"), Event.printed cause])
  | Except.error APIException.rateLimitError =>
    ("", [Event.printed ("A 429 status code was received; we should back off a bit.")])
  | Except.error (APIException.apiStatusError status_code response) =>
    ("", [Event.printed ("Another non-200-range status code was received"),
          Event.printed (toString status_code), Event.printed response])

/-- Where the main loop goes after one iteration. -/
inductive LoopOutcome where
  | continueListening : LoopOutcome
  | terminated : LoopOutcome
deriving DecidableEq

/-- Thinking phase of one loop iteration (speech.py lines 286-294):
append the transcript as a user turn, call the model, append the
(possibly empty) reply as an assistant turn, then run the command
extractor on the reply.  The updated interface is returned alongside the
extractor result, so the log mutations are recorded even when the
extractor raises. -/
def ThinkingState (iface : AnthropicModelInterface) (fs : FS)
    (heard_text : String) (outcome : APIOutcome) :
    AnthropicModelInterface × List Event × Except PyErr (String × FS × List Event) :=
  let iface1 := AddUserMessage iface heard_text
  let call := MakeAnthropicAPICall outcome
  let iface2 := AddAgentMessage iface1 call.1
  (iface2, call.2, HandleFileCreationString call.1 fs)

/-- Speaking phase of one loop iteration (speech.py lines 298-307):
speak a non-empty cleaned utterance, then terminate iff it contains the
termination phrase; an empty utterance produces no audio and always
returns to listening. -/
def SpeakingState (text_to_say : String) : List Event × LoopOutcome :=
  if text_to_say = "" then ([], LoopOutcome.continueListening)
  else if CheckForTerminate text_to_say then
    ([Event.spoke text_to_say], LoopOutcome.terminated)
  else ([Event.spoke text_to_say], LoopOutcome.continueListening)

/-- One iteration of the main conversation loop (speech.py lines
265-307), parametrized by the transcript the recorder produced and by
the external API outcome.  An empty transcript takes the canned-response
branch without touching the log or the model; otherwise the thinking
phase runs and the speaking phase follows, and an exception raised by
the extractor propagates (ending the process, as in Python). -/
def loopIteration (iface : AnthropicModelInterface) (fs : FS)
    (heard_text : String) (outcome : APIOutcome) :
    Except PyErr (AnthropicModelInterface × FS × List Event × LoopOutcome) :=
  if heard_text = "" then
    Except.ok (iface, fs, [Event.spoke ("It seems you didn't say anything.")],
      LoopOutcome.continueListening)
  else
    match ThinkingState iface fs heard_text outcome with
    | (_, _, Except.error err) => Except.error err
    | (iface2, apiEvents, Except.ok (text_to_say, fs1, extractEvents)) =>
      let speak := SpeakingState text_to_say
      Except.ok (iface2, fs1,
        [PrintUser heard_text] ++ apiEvents ++ extractEvents
          ++ [PrintAgent text_to_say] ++ speak.1,
        speak.2)

/-- Statement-side definition following the wording of the claim about
scrubbing: remove from the original text exactly the character positions
covered by the matched candidate blocks, keeping every other position.
It is compared against the program's actual `str.replace` scrubbing. -/
def removeMatchedOccurrences (s : String) : String :=
  String.mk (((List.range s.data.length).filter
    (fun i => decide (∀ p ∈ ScanPairs s, i < p.1 ∨ p.2 < i))).filterMap
    (fun i => s.data[i]?))

/-- Scanner state (the loop's `in_json` flag and `start_idx`) after
consuming a piece of input; used to reason about scans of concatenated
inputs. -/
def ScanStateAux : Nat → Bool → Nat → List Char → Bool × Nat
  | _, inj, start, [] => (inj, start)
  | idx, inj, start, value :: rest =>
    if inj = false ∧ value = '\x7b' then ScanStateAux (idx + 1) true idx rest
    else if inj = true ∧ value = '\x7d' then ScanStateAux (idx + 1) false start rest
    else ScanStateAux (idx + 1) inj start rest

lemma scanAux_append (l m : List Char) :
    ∀ (idx : Nat) (inj : Bool) (start : Nat),
      ScanAux idx inj start (l ++ m) =
        ScanAux idx inj start l ++
          ScanAux (idx + l.length) (ScanStateAux idx inj start l).1
            (ScanStateAux idx inj start l).2 m := by
  induction l with
  | nil => intro idx inj start; simp [ScanAux, ScanStateAux]
  | cons c rest ih =>
    intro idx inj start
    have harith : idx + 1 + rest.length = idx + (c :: rest).length := by
      simp [List.length_cons]; omega
    by_cases h1 : inj = false ∧ c = '\x7b'
    · simp only [List.cons_append, ScanAux, ScanStateAux, if_pos h1]
      rw [← harith]
      exact ih _ _ _
    · by_cases h2 : inj = true ∧ c = '\x7d'
      · simp only [List.cons_append, ScanAux, ScanStateAux, if_neg h1, if_pos h2]
        rw [← harith]
        exact congrArg (List.cons (start, idx)) (ih _ _ _)
      · simp only [List.cons_append, ScanAux, ScanStateAux, if_neg h1, if_neg h2]
        rw [← harith]
        exact ih _ _ _

lemma scanAux_no_close (l : List Char) (h : '\x7d' ∉ l) :
    ∀ (idx : Nat) (inj : Bool) (start : Nat), ScanAux idx inj start l = [] := by
  induction l with
  | nil => intro idx inj start; simp [ScanAux]
  | cons c rest ih =>
    intro idx inj start
    have hc : c ≠ '\x7d' := fun hc => h (hc ▸ List.mem_cons_self c rest)
    have hr : '\x7d' ∉ rest := fun hm => h (List.mem_cons_of_mem c hm)
    by_cases h1 : inj = false ∧ c = '\x7b'
    · simp only [ScanAux, if_pos h1]; exact ih hr _ _ _
    · have h2 : ¬(inj = true ∧ c = '\x7d') := fun hx => hc hx.2
      simp only [ScanAux, if_neg h1, if_neg h2]; exact ih hr _ _ _

lemma scanAux_no_open (l : List Char) (h : '\x7b' ∉ l) :
    ∀ (idx : Nat) (start : Nat), ScanAux idx false start l = [] := by
  induction l with
  | nil => intro idx start; simp [ScanAux]
  | cons c rest ih =>
    intro idx start
    have hc : c ≠ '\x7b' := fun hc => h (hc ▸ List.mem_cons_self c rest)
    have hr : '\x7b' ∉ rest := fun hm => h (List.mem_cons_of_mem c hm)
    simp [ScanAux, hc]
    exact ih hr _ _

lemma scanAux_sound (s : List Char) (l : List Char) :
    ∀ (idx : Nat) (inj : Bool) (start : Nat),
      l = s.drop idx →
      (inj = true → start < idx ∧ s[start]? = some '\x7b' ∧
        ∀ k, start < k → k < idx → s[k]? ≠ some '\x7d') →
      ∀ p ∈ ScanAux idx inj start l,
        p.1 < p.2 ∧ p.2 < idx + l.length ∧ s[p.1]? = some '\x7b' ∧
        s[p.2]? = some '\x7d' ∧
        ∀ k, p.1 < k → k < p.2 → s[k]? ≠ some '\x7d' := by
  induction l with
  | nil => intro idx inj start _ _ p hp; simp [ScanAux] at hp
  | cons c rest ih =>
    intro idx inj start hdrop hinv p hp
    have hcidx : s[idx]? = some c := by
      have h0 : (List.drop idx s)[0]? = some c := by rw [← hdrop]; simp
      rwa [List.getElem?_drop, Nat.add_zero] at h0
    have hrest : rest = s.drop (idx + 1) := by
      have hdd : (List.drop idx s).drop 1 = s.drop (idx + 1) := by
        rw [List.drop_drop]
      rw [← hdd, ← hdrop]
      rfl
    rw [ScanAux] at hp
    by_cases h1 : inj = false ∧ c = '\x7b'
    · rw [if_pos h1] at hp
      have hres := ih (idx + 1) true idx hrest ?_ p hp
      · refine ⟨hres.1, ?_, hres.2.2⟩
        have := hres.2.1
        simp only [List.length_cons]
        omega
      · intro _
        refine ⟨Nat.lt_succ_self idx, h1.2 ▸ hcidx, ?_⟩
        intro k hk1 hk2 _
        omega
    · by_cases h2 : inj = true ∧ c = '\x7d'
      · rw [if_neg h1, if_pos h2] at hp
        rcases List.mem_cons.mp hp with hpe | hptail
        · obtain ⟨hlt, hopen, hinter⟩ := hinv h2.1
          subst hpe
          refine ⟨hlt, ?_, hopen, h2.2 ▸ hcidx, hinter⟩
          simp only [List.length_cons]
          omega
        · have hres := ih (idx + 1) false start hrest (by intro hx; simp at hx) p hptail
          refine ⟨hres.1, ?_, hres.2.2⟩
          have := hres.2.1
          simp only [List.length_cons]
          omega
      · rw [if_neg h1, if_neg h2] at hp
        have hres := ih (idx + 1) inj start hrest ?_ p hp
        · refine ⟨hres.1, ?_, hres.2.2⟩
          have := hres.2.1
          simp only [List.length_cons]
          omega
        · intro hinj
          obtain ⟨ha, hb, hc'⟩ := hinv hinj
          have hcne : c ≠ '\x7d' := fun hcc => h2 ⟨hinj, hcc⟩
          refine ⟨by omega, hb, ?_⟩
          intro k hk1 hk2
          by_cases hk : k = idx
          · subst hk
            rw [hcidx]
            intro hcon
            exact hcne (Option.some.inj hcon)
          · exact hc' k hk1 (by omega)

lemma isPrefixOf_eq_iff {l₁ l₂ : List Char} : l₁.isPrefixOf l₂ = true ↔ l₁ <+: l₂ :=
  List.isPrefixOf_iff_prefix

lemma strContains_iff (pat : List Char) :
    ∀ l : List Char, strContains pat l = true ↔ pat <:+: l := by
  intro l
  induction l with
  | nil => simp [strContains, List.isEmpty_iff, List.infix_nil]
  | cons c rest ih =>
    rw [strContains, Bool.or_eq_true, List.infix_cons_iff]
    constructor
    · rintro (h | h)
      · exact Or.inl (isPrefixOf_eq_iff.mp h)
      · exact Or.inr (ih.mp h)
    · rintro (h | h)
      · exact Or.inl (isPrefixOf_eq_iff.mpr h)
      · exact Or.inr (ih.mpr h)

lemma pyReplaceAux_nil (pat : List Char) : pyReplaceAux pat [] = [] := by
  rw [pyReplaceAux]

lemma pyReplaceFuel_eq (pat : List Char) :
    ∀ (f : Nat) (l : List Char), l.length ≤ f → pyReplaceFuel pat f l = pyReplaceAux pat l := by
  intro f
  induction f with
  | zero =>
    intro l hl
    have hnil : l = [] := List.length_eq_zero.mp (Nat.le_zero.mp hl)
    subst hnil
    rw [pyReplaceFuel, pyReplaceAux_nil]
  | succ f ihf =>
    intro l hl
    cases l with
    | nil => rw [pyReplaceFuel, pyReplaceAux_nil]
    | cons c rest =>
      rw [pyReplaceFuel, pyReplaceAux]
      by_cases hcond : pat ≠ [] ∧ pat.isPrefixOf (c :: rest) = true
      · rw [if_pos hcond, if_pos hcond]
        exact ihf _ (by simp only [List.length_drop, List.length_cons] at hl ⊢; omega)
      · rw [if_neg hcond, if_neg hcond]
        rw [ihf rest (by simp only [List.length_cons] at hl; omega)]

lemma pyReplace_data (s pat : String) :
    pyReplace s pat = String.mk (pyReplaceAux pat.data s.data) := by
  rw [pyReplace, pyReplaceFuel_eq pat.data s.data.length s.data (le_refl _)]

lemma pyReplaceAux_no_occ (pat : List Char) :
    ∀ l : List Char, ¬(pat <:+: l) → pyReplaceAux pat l = l := by
  intro l
  induction l with
  | nil => intro _; exact pyReplaceAux_nil pat
  | cons c rest ih =>
    intro h
    rw [pyReplaceAux, if_neg]
    · rw [ih (fun hi => h (List.infix_cons_iff.mpr (Or.inr hi)))]
    · rintro ⟨_, hpre⟩
      exact h (List.infix_cons_iff.mpr (Or.inl (isPrefixOf_eq_iff.mp hpre)))

lemma pyReplaceAux_append (pat : List Char) (hpat : pat.getLast? = some '\x7d') :
    ∀ (n : Nat) (u t : List Char), u.length ≤ n → '\x7d' ∉ t →
      pyReplaceAux pat (u ++ t) = pyReplaceAux pat u ++ t := by
  have hmem : '\x7d' ∈ pat := List.mem_of_mem_getLast? (by rw [hpat]; rfl)
  have hne : pat ≠ [] := by rintro rfl; simp at hpat
  intro n
  induction n with
  | zero =>
    intro u t hu ht
    have hnil : u = [] := List.length_eq_zero.mp (Nat.le_zero.mp hu)
    subst hnil
    have hocc : ¬(pat <:+: t) := fun hi => ht (hi.subset hmem)
    rw [List.nil_append, pyReplaceAux_no_occ pat t hocc, pyReplaceAux_nil, List.nil_append]
  | succ n ihn =>
    intro u t hu ht
    cases u with
    | nil =>
      have hocc : ¬(pat <:+: t) := fun hi => ht (hi.subset hmem)
      rw [List.nil_append, pyReplaceAux_no_occ pat t hocc, pyReplaceAux_nil, List.nil_append]
    | cons c u' =>
      by_cases hcond : pat.isPrefixOf (c :: u') = true
      · have hpre : pat <+: c :: u' := isPrefixOf_eq_iff.mp hcond
        have hcondL : pat.isPrefixOf (c :: u' ++ t) = true :=
          isPrefixOf_eq_iff.mpr (hpre.trans (List.prefix_append (c :: u') t))
        rw [List.cons_append, pyReplaceAux, if_pos ⟨hne, by rw [← List.cons_append]; exact hcondL⟩]
        rw [pyReplaceAux, if_pos ⟨hne, hcond⟩]
        have hlenpat : pat.length - 1 ≤ u'.length := by
          have := hpre.length_le
          simp only [List.length_cons] at this
          omega
        rw [List.drop_append_of_le_length hlenpat]
        have hu' : (u'.drop (pat.length - 1)).length ≤ n := by
          simp only [List.length_drop]
          simp only [List.length_cons] at hu
          omega
        exact ihn (u'.drop (pat.length - 1)) t hu' ht
      · have hcondL : ¬(pat.isPrefixOf (c :: u' ++ t) = true) := by
          intro hx
          have hp : pat <+: (c :: u') ++ t := by
            have := isPrefixOf_eq_iff.mp hx
            simpa using this
          by_cases hlen : pat.length ≤ (c :: u').length
          · have hshort : pat <+: c :: u' := by
              have hpt := List.prefix_iff_eq_take.mp hp
              rw [List.take_append_of_le_length hlen] at hpt
              exact List.prefix_iff_eq_take.mpr hpt
            exact hcond (isPrefixOf_eq_iff.mpr hshort)
          · obtain ⟨q, hq⟩ := List.getLast?_eq_some_iff.mp hpat
            have hlen2 : pat.length = q.length + 1 := by simp [hq]
            have hpt : pat = List.take pat.length ((c :: u') ++ t) :=
              List.prefix_iff_eq_take.mp hp
            have hL : ((c :: u') ++ t)[q.length]? = some '\x7d' := by
              have h1 : pat[q.length]? = some '\x7d' := by
                rw [hq]
                simp [List.getElem?_append]
              rw [hpt, List.getElem?_take, if_pos (by omega)] at h1
              exact h1
            have hnotlt : ¬(q.length < (c :: u').length) := by
              intro hcon
              exact hlen (by omega)
            rw [List.getElem?_append, if_neg hnotlt] at hL
            exact ht (List.getElem?_mem hL)
        rw [List.cons_append, pyReplaceAux, if_neg (fun hx => hcondL hx.2)]
        rw [pyReplaceAux, if_neg (fun hx => hcond hx.2)]
        have hu' : u'.length ≤ n := by
          simp only [List.length_cons] at hu
          omega
        rw [ihn u' t hu' ht, List.cons_append]

lemma foldl_pyReplace_append (t : List Char) (ht : '\x7d' ∉ t) :
    ∀ (blocks : List String) (u : List Char),
      (∀ b ∈ blocks, b.data.getLast? = some '\x7d') →
      blocks.foldl (fun acc b => pyReplace acc b) (String.mk (u ++ t)) =
        String.mk ((blocks.foldl (fun acc b => pyReplace acc b) (String.mk u)).data ++ t) := by
  intro blocks
  induction blocks with
  | nil => intro u _; rfl
  | cons b bs ih =>
    intro u hb
    simp only [List.foldl_cons]
    have hbl := hb b (List.mem_cons_self b bs)
    have hrw : pyReplace (String.mk u) b = String.mk (pyReplaceAux b.data u) :=
      pyReplace_data (String.mk u) b
    have h1 : pyReplace (String.mk (u ++ t)) b = String.mk (pyReplaceAux b.data u ++ t) := by
      rw [pyReplace_data]
      show String.mk (pyReplaceAux b.data (u ++ t)) = _
      rw [pyReplaceAux_append b.data hbl u.length u t (le_refl _) ht]
    rw [h1, hrw]
    exact ih (pyReplaceAux b.data u) (fun bb hbb => hb bb (List.mem_cons_of_mem _ hbb))

lemma sliceIncl_getLast (s : List Char) (a b : Nat) (hab : a ≤ b) (hb : b < s.length) :
    (sliceIncl s a b).getLast? = s[b]? := by
  rw [sliceIncl, List.getLast?_eq_getElem?]
  have hlen : ((s.drop a).take (b + 1 - a)).length = b + 1 - a := by
    simp only [List.length_take, List.length_drop]
    omega
  rw [hlen, List.getElem?_take, if_pos (by omega), List.getElem?_drop]
  congr 1
  omega

lemma sliceIncl_append (s m : List Char) (a b : Nat) (hab : a ≤ b) (hb : b < s.length) :
    sliceIncl (s ++ m) a b = sliceIncl s a b := by
  rw [sliceIncl, sliceIncl]
  rw [List.drop_append_of_le_length (by omega)]
  rw [List.take_append_of_le_length (by simp only [List.length_drop]; omega)]

lemma scanPairs_sound (s : String) :
    ∀ p ∈ ScanPairs s, p.1 < p.2 ∧ p.2 < s.data.length ∧
      s.data[p.1]? = some '\x7b' ∧ s.data[p.2]? = some '\x7d' ∧
      ∀ k, p.1 < k → k < p.2 → s.data[k]? ≠ some '\x7d' := by
  intro p hp
  have h := scanAux_sound s.data s.data 0 false 0 (by simp) (by intro hx; simp at hx) p hp
  refine ⟨h.1, ?_, h.2.2.1, h.2.2.2.1, h.2.2.2.2⟩
  have := h.2.1
  omega

lemma scanBlocks_getLast (s : String) :
    ∀ b ∈ ScanBlocks s, b.data.getLast? = some '\x7d' := by
  intro b hb
  obtain ⟨p, hp, rfl⟩ := List.mem_map.mp hb
  obtain ⟨h1, h2, _, h4, _⟩ := scanPairs_sound s p hp
  show (sliceIncl s.data p.1 p.2).getLast? = some '\x7d'
  rw [sliceIncl_getLast s.data p.1 p.2 (le_of_lt h1) h2]
  exact h4

lemma handle_ok_cleaned (s : String) (fs : FS) (r : String × FS × List Event)
    (h : HandleFileCreationString s fs = Except.ok r) :
    r.1 = (ScanBlocks s).foldl (fun acc b => pyReplace acc b) s := by
  rw [HandleFileCreationString] at h
  cases hpb : processBlocks (ScanBlocks s) fs with
  | error e => rw [hpb] at h; simp at h
  | ok v =>
    obtain ⟨fs1, evs⟩ := v
    rw [hpb] at h
    cases h
    rfl

/-- Claim C2: for every candidate block whose content fails to parse as
JSON, the extractor prints a diagnostic naming the malformed block,
performs no file write for it and leaves the file system untouched, and
the parse failure is caught rather than raised; the block still takes
part in the unconditional removal pass that produces the cleaned text. -/
theorem claim_C2_malformed_block_skipped
    (s b e : String) (fs : FS)
    (_hmem : b ∈ ScanBlocks s) (herr : loads b = Except.error e) :
    WriteJsonFile b fs =
      Except.ok (fs, [Event.printed ("Malformed JSON: " ++ b), Event.printed e]) ∧
    (∀ fs2 r, HandleFileCreationString s fs2 = Except.ok r →
      r.1 = (ScanBlocks s).foldl (fun acc bl => pyReplace acc bl) s) := by
  constructor
  · simp only [WriteJsonFile, herr]
  · intro fs2 r hr
    exact handle_ok_cleaned s fs2 r hr

/-- Witness for claim C2 at the spec's example input. -/
theorem claim_C2_witness :
    WriteJsonFile ("\x7bnot json\x7d") (FS.mk []) =
      Except.ok (FS.mk [],
        [Event.printed ("Malformed JSON: \x7bnot json\x7d"),
         Event.printed ("Expecting property name enclosed in double quotes")]) :=
  (claim_C2_malformed_block_skipped ("note \x7bnot json\x7d end") ("\x7bnot json\x7d")
    ("Expecting property name enclosed in double quotes") (FS.mk [])
    (by decide) (by rfl)).1

/-- Claim C3 names a behavior the source does not have: for a block that
parses as JSON but whose `file` key is absent, `WriteJsonFile` evaluates
`f["file"]`, which raises `KeyError`; only `json.JSONDecodeError` is
caught, so the exception escapes `HandleFileCreationString` to the
caller, contrary to the claim (and to the source's own comment, which
says the required fields are validated).  The empty-field case does
behave as claimed: diagnostic, no write, block removed. -/
theorem claim_C3_absent_field_raises_keyerror :
    HandleFileCreationString ("\x7b\"text\":\"x\"\x7d") (FS.mk []) =
      Except.error (PyErr.keyError ("file")) ∧
    WriteJsonFile ("\x7b\"text\":\"x\"\x7d") (FS.mk []) =
      Except.error (PyErr.keyError ("file")) ∧
    HandleFileCreationString ("\x7b\"file\":\"\",\"text\":\"x\"\x7d") (FS.mk []) =
      Except.ok ("", FS.mk [], [Event.printed ("Wrong fields in JSON")]) :=
  ⟨rfl, rfl, rfl⟩

/-- Claim C4: on text that contains no brace of either kind, extraction
is the identity — no candidate blocks, no writes, no diagnostics, and
the text is returned unchanged. -/
theorem claim_C4_no_braces_identity (s : String) (fs : FS)
    (h : ∀ c ∈ s.data, c ≠ '\x7b' ∧ c ≠ '\x7d') :
    ScanBlocks s = [] ∧ HandleFileCreationString s fs = Except.ok (s, fs, []) := by
  have hopen : '\x7b' ∉ s.data := fun hm => (h _ hm).1 rfl
  have hpairs : ScanPairs s = [] := scanAux_no_open s.data hopen 0 0
  have hblocks : ScanBlocks s = [] := by rw [ScanBlocks, hpairs]; rfl
  refine ⟨hblocks, ?_⟩
  simp only [HandleFileCreationString, hblocks, processBlocks, List.foldl_nil]

/-- Witness for claim C4. -/
theorem claim_C4_witness :
    ScanBlocks ("hello world") = [] ∧
    HandleFileCreationString ("hello world") (FS.mk [(("a.txt" : String), ("old" : String))]) =
      Except.ok ("hello world", FS.mk [(("a.txt" : String), ("old" : String))], []) :=
  claim_C4_no_braces_identity ("hello world") (FS.mk [(("a.txt" : String), ("old" : String))])
    (by decide)

/-- Claim C7: termination detection is a literal substring check — true
exactly on the strings that contain the fixed phrase (in particular on
the phrase itself and on any longer string around it) — and after
speaking a non-empty cleaned utterance that contains the phrase, the
loop's speaking phase ends in the terminated state. -/
theorem claim_C7_terminate_substring :
    CheckForTerminate terminationPhrase = true ∧
    (∀ s : String, CheckForTerminate s = true ↔ terminationPhrase.data <:+: s.data) ∧
    (∀ t : String, t ≠ "" → CheckForTerminate t = true →
      SpeakingState t = ([Event.spoke t], LoopOutcome.terminated)) := by
  refine ⟨by decide, ?_, ?_⟩
  · intro s
    exact strContains_iff terminationPhrase.data s.data
  · intro t ht hterm
    rw [SpeakingState, if_neg ht, if_pos hterm]

/-- Witness for claim C7: the phrase embedded in a longer utterance
still triggers termination. -/
theorem claim_C7_witness :
    CheckForTerminate ("Well. It was good talking with you. Bye") = true ∧
    SpeakingState ("Well. It was good talking with you. Bye") =
      ([Event.spoke ("Well. It was good talking with you. Bye")], LoopOutcome.terminated) :=
  ⟨by decide,
   claim_C7_terminate_substring.2.2 ("Well. It was good talking with you. Bye")
     (by decide) (by decide)⟩

/-- Claim C8: each of the three recognized failure classes of the LLM
call is caught inside `MakeAnthropicAPICall`, which logs diagnostics and
returns the empty string; no such failure reaches the caller, and a
collaborator that always raises the rate-limit failure yields the empty
string on every call. -/
theorem claim_C8_api_failures_return_empty :
    (∀ cause, MakeAnthropicAPICall (APIOutcome.raises (APIException.apiConnectionError cause)) =
      ("", [Event.printed ("The server could not be reached"), Event.printed cause])) ∧
    MakeAnthropicAPICall (APIOutcome.raises APIException.rateLimitError) =
      ("", [Event.printed ("A 429 status code was received; we should back off a bit.")]) ∧
    (∀ status_code response,
      MakeAnthropicAPICall (APIOutcome.raises (APIException.apiStatusError status_code response)) =
        ("", [Event.printed ("Another non-200-range status code was received"),
              Event.printed (toString status_code), Event.printed response])) ∧
    (∀ e, (MakeAnthropicAPICall (APIOutcome.raises e)).1 = "") ∧
    (∀ collaborator : Nat → APIOutcome,
      (∀ n, collaborator n = APIOutcome.raises APIException.rateLimitError) →
      ∀ n, (MakeAnthropicAPICall (collaborator n)).1 = "") := by
  refine ⟨fun cause => rfl, rfl, fun status_code response => rfl, ?_, ?_⟩
  · intro e
    cases e <;> rfl
  · intro collaborator h n
    rw [h n]
    rfl

/-- Witness for claim C8: an always-rate-limited collaborator produces
the empty string on a concrete call. -/
theorem claim_C8_witness :
    (MakeAnthropicAPICall ((fun _ => APIOutcome.raises APIException.rateLimitError) 0)).1 = "" :=
  claim_C8_api_failures_return_empty.2.2.2.2
    (fun _ => APIOutcome.raises APIException.rateLimitError) (fun _ => rfl) 0

/-- Claim C9: for a non-empty transcript, the thinking phase appends
exactly one user turn carrying the transcript and then exactly one
assistant turn carrying the (possibly empty) reply, and nothing else; the
prior log is a prefix of the new log (append-only), and the speaking
phase that follows never changes the log again. -/
theorem claim_C9_thinking_appends_two_turns
    (iface : AnthropicModelInterface) (fs : FS) (T : String) (outcome : APIOutcome)
    (hT : T ≠ "") :
    (ThinkingState iface fs T outcome).1.conversation_log =
      iface.conversation_log ++
        [Message.mk ("user") [ContentItem.mk ("text") T],
         Message.mk ("assistant") [ContentItem.mk ("text") (MakeAnthropicAPICall outcome).1]] ∧
    iface.conversation_log <+: (ThinkingState iface fs T outcome).1.conversation_log ∧
    (∀ r, loopIteration iface fs T outcome = Except.ok r →
      r.1 = (ThinkingState iface fs T outcome).1) := by
  have hlog : (ThinkingState iface fs T outcome).1.conversation_log =
      iface.conversation_log ++
        [Message.mk ("user") [ContentItem.mk ("text") T],
         Message.mk ("assistant") [ContentItem.mk ("text") (MakeAnthropicAPICall outcome).1]] := by
    show (AddAgentMessage (AddUserMessage iface T) (MakeAnthropicAPICall outcome).1).conversation_log = _
    rw [AddAgentMessage, AddUserMessage]
    simp [List.append_assoc]
  refine ⟨hlog, ⟨_, hlog.symm⟩, ?_⟩
  intro r hr
  rw [loopIteration, if_neg hT] at hr
  cases hH : HandleFileCreationString (MakeAnthropicAPICall outcome).1 fs with
  | error err =>
    rw [show ThinkingState iface fs T outcome =
        (AddAgentMessage (AddUserMessage iface T) (MakeAnthropicAPICall outcome).1,
         (MakeAnthropicAPICall outcome).2,
         HandleFileCreationString (MakeAnthropicAPICall outcome).1 fs) from rfl, hH] at hr
    simp at hr
  | ok v =>
    obtain ⟨text_to_say, fs1, extractEvents⟩ := v
    rw [show ThinkingState iface fs T outcome =
        (AddAgentMessage (AddUserMessage iface T) (MakeAnthropicAPICall outcome).1,
         (MakeAnthropicAPICall outcome).2,
         HandleFileCreationString (MakeAnthropicAPICall outcome).1 fs) from rfl, hH] at hr
    cases hr
    rfl

/-- Witness for claim C9 at a concrete transcript and reply. -/
theorem claim_C9_witness :
    (ThinkingState (AnthropicModelInterface.mk ("sys") []) (FS.mk []) ("Hello there")
        (APIOutcome.success ("Hi"))).1.conversation_log =
      [Message.mk ("user") [ContentItem.mk ("text") ("Hello there")],
       Message.mk ("assistant") [ContentItem.mk ("text") ("Hi")]] := by
  have h := claim_C9_thinking_appends_two_turns (AnthropicModelInterface.mk ("sys") [])
    (FS.mk []) ("Hello there") (APIOutcome.success ("Hi")) (by decide)
  exact h.1.trans (by rfl)

lemma string_mk_data (s : String) : String.mk s.data = s := by
  rcases s with ⟨l⟩
  rfl

lemma handle_no_open (s : String) (fs : FS) (h : '\x7b' ∉ s.data) :
    ScanBlocks s = [] ∧ HandleFileCreationString s fs = Except.ok (s, fs, []) := by
  have hpairs : ScanPairs s = [] := scanAux_no_open s.data h 0 0
  have hblocks : ScanBlocks s = [] := by rw [ScanBlocks, hpairs]; rfl
  refine ⟨hblocks, ?_⟩
  simp only [HandleFileCreationString, hblocks, processBlocks, List.foldl_nil]

/-- Claim C1: for an input whose scan finds exactly one block, and that
block parses as JSON with non-empty string `file` and `text` fields, the
extractor returns the text with the block removed, performs exactly one
write — of the content to the named path — and that write fully
overwrites any prior content at the path. -/
theorem claim_C1_single_valid_block
    (s b path content : String) (f : Json) (fs : FS)
    (hscan : ScanBlocks s = [b])
    (hparse : loads b = Except.ok f)
    (hfile : jsonSubscript f ("file") = Except.ok (Json.str path))
    (htext : jsonSubscript f ("text") = Except.ok (Json.str content))
    (hp : path ≠ "") (ht : content ≠ "") :
    HandleFileCreationString s fs =
      Except.ok (pyReplace s b, fsWrite fs path content, [Event.wrote path content]) ∧
    fsRead (fsWrite fs path content) path = some content := by
  have hpe : pyFalsy (Json.str path) = false := by
    simp [pyFalsy, Bool.eq_false_iff, String.isEmpty_iff, hp]
  have hte : pyFalsy (Json.str content) = false := by
    simp [pyFalsy, Bool.eq_false_iff, String.isEmpty_iff, ht]
  have hwrite : WriteJsonFile b fs =
      Except.ok (fsWrite fs path content, [Event.wrote path content]) := by
    simp only [WriteJsonFile, hparse, hfile, htext, hpe, hte]
    rfl
  constructor
  · simp only [HandleFileCreationString, hscan, processBlocks, hwrite,
      List.foldl_cons, List.foldl_nil, List.append_nil]
  · simp [fsRead, fsWrite, List.find?]

/-- Witness for claim C1 at the spec's example input, with prior content
at the target path to exhibit the overwrite. -/
theorem claim_C1_witness :
    HandleFileCreationString ("prefix \x7b\"file\":\"a.txt\",\"text\":\"hi\"\x7d suffix")
        (FS.mk [(("a.txt" : String), ("old" : String))]) =
      Except.ok ("prefix  suffix",
        fsWrite (FS.mk [(("a.txt" : String), ("old" : String))]) ("a.txt") ("hi"),
        [Event.wrote ("a.txt") ("hi")]) ∧
    fsRead (fsWrite (FS.mk [(("a.txt" : String), ("old" : String))]) ("a.txt") ("hi"))
        ("a.txt") = some ("hi") := by
  have h := claim_C1_single_valid_block
    ("prefix \x7b\"file\":\"a.txt\",\"text\":\"hi\"\x7d suffix")
    ("\x7b\"file\":\"a.txt\",\"text\":\"hi\"\x7d") ("a.txt") ("hi")
    (Json.obj [(("file" : String), Json.str ("a.txt")), (("text" : String), Json.str ("hi"))])
    (FS.mk [(("a.txt" : String), ("old" : String))])
    (by rfl) (by rfl) (by rfl) (by rfl) (by decide) (by decide)
  exact ⟨h.1.trans (by rfl), h.2⟩

/-- Claim C5: the scanner keeps only a single inside-block flag — every
recorded pair opens at a brace and closes at the first closing brace
after it (no closing brace strictly inside a block, i.e. no depth
counting), the recorded block is the input substring from the opening
brace through that closing brace inclusive, and opening braces inside a
block are ignored, as the concrete nested input shows. -/
theorem claim_C5_scanner_single_flag
    (s : String) (p : Nat × Nat) (hp : p ∈ ScanPairs s) :
    p.1 < p.2 ∧ s.data[p.1]? = some '\x7b' ∧ s.data[p.2]? = some '\x7d' ∧
    (∀ k, p.1 < k → k < p.2 → s.data[k]? ≠ some '\x7d') ∧
    ScanBlocks s = (ScanPairs s).map (fun q => String.mk (sliceIncl s.data q.1 q.2)) ∧
    ScanBlocks ("a\x7bb\x7bc\x7dd\x7de") = ["\x7bb\x7bc\x7d"] := by
  obtain ⟨h1, _, h3, h4, h5⟩ := scanPairs_sound s p hp
  exact ⟨h1, h3, h4, h5, rfl, rfl⟩

/-- Witness for claim C5 on a concrete scan. -/
theorem claim_C5_witness :
    ("x\x7by\x7dz" : String).data[1]? = some '\x7b' ∧
    ("x\x7by\x7dz" : String).data[3]? = some '\x7d' := by
  have h := claim_C5_scanner_single_flag ("x\x7by\x7dz") ((1, 3)) (by decide)
  exact ⟨h.2.1, h.2.2.1⟩

/-- Projection of the cleaned text out of an extraction result. -/
def cleanedText : Except PyErr (String × FS × List Event) → Option String
  | Except.ok r => some r.1
  | Except.error _ => none

/-- Counterexample to claim C6 as stated.  On this input the scanner
matches the blocks at positions 0-2 and 4-8; removing exactly the
matched occurrences would give " ", but `str.replace` removes every
occurrence of each matched block string, so the unmatched occurrence of
the first block inside the second block is removed too, the second
block's own removal then finds nothing, and the cleaned text is
" \x7bq". -/
theorem claim_C6_counterexample :
    cleanedText (HandleFileCreationString ("\x7bx\x7d \x7bq\x7bx\x7d") (FS.mk [])) =
      some (" \x7bq") ∧
    removeMatchedOccurrences ("\x7bx\x7d \x7bq\x7bx\x7d") = " " ∧
    (" \x7bq" : String) ≠ (" " : String) :=
  ⟨rfl, rfl, by decide⟩

lemma pyReplaceAux_leftmost (pat : List Char) (hne : pat ≠ []) :
    ∀ (u v : List Char),
      (∀ i, i < u.length → ¬(pat <+: (u ++ (pat ++ v)).drop i)) →
      pyReplaceAux pat (u ++ (pat ++ v)) = u ++ pyReplaceAux pat v := by
  intro u
  induction u with
  | nil =>
    intro v _
    rw [List.nil_append, List.nil_append]
    obtain ⟨c, pt, rfl⟩ : ∃ c pt, pat = c :: pt := by
      cases pat with
      | nil => exact absurd rfl hne
      | cons c pt => exact ⟨c, pt, rfl⟩
    rw [List.cons_append, pyReplaceAux]
    rw [if_pos ⟨hne, isPrefixOf_eq_iff.mpr
      (by rw [← List.cons_append]; exact List.prefix_append _ v)⟩]
    rw [List.length_cons, Nat.add_sub_cancel, List.drop_left]
  | cons c u' ih =>
    intro v hno
    have h0 : ¬(pat <+: (c :: u') ++ (pat ++ v)) := by
      have hi := hno 0 (by simp)
      simpa using hi
    rw [List.cons_append, pyReplaceAux]
    rw [if_neg (fun hx =>
      h0 (by rw [List.cons_append]; exact isPrefixOf_eq_iff.mp hx.2))]
    rw [ih v ?_, List.cons_append]
    intro i hi
    have hs := hno (i + 1) (by simp only [List.length_cons]; omega)
    simpa using hs

/-- Claim C6 amended: the cleaned text is produced by taking each matched
block in the order found and removing every left-to-right occurrence of
its literal substring from the current text (Python `str.replace`
semantics), not only the occurrences matched as blocks.  The second and
third parts pin the replace semantics down: a pattern with no occurrence
leaves the text unchanged, and at the leftmost occurrence the pattern is
removed and scanning resumes after the removed occurrence. -/
theorem claim_C6_amended_replace_all :
    (∀ s fs r, HandleFileCreationString s fs = Except.ok r →
      r.1 = (ScanBlocks s).foldl (fun acc b => pyReplace acc b) s) ∧
    (∀ text pat : String, ¬(pat.data <:+: text.data) → pyReplace text pat = text) ∧
    (∀ (pat u v : List Char), pat ≠ [] →
      (∀ i, i < u.length → ¬(pat <+: (u ++ (pat ++ v)).drop i)) →
      pyReplaceAux pat (u ++ (pat ++ v)) = u ++ pyReplaceAux pat v) := by
  refine ⟨handle_ok_cleaned, ?_, ?_⟩
  · intro text pat hno
    rcases text with ⟨l⟩
    rw [pyReplace_data, pyReplaceAux_no_occ pat.data l hno]
  · intro pat u v hne hno
    exact pyReplaceAux_leftmost pat hne u v hno

/-- Witness for claim C6's amended statement: the leftmost-occurrence
step at a concrete pattern and split. -/
theorem claim_C6_witness :
    pyReplaceAux ("ab").data (("x").data ++ (("ab").data ++ ("cab").data)) =
      ("x").data ++ pyReplaceAux ("ab").data (("cab").data) :=
  claim_C6_amended_replace_all.2.2 (("ab").data) (("x").data) (("cab").data)
    (by decide) (by decide)

lemma append_brace_suf (a suf : String) :
    a ++ "\x7b" ++ suf = String.mk (a.data ++ ('\x7b' :: suf.data)) := by
  rcases a with ⟨la⟩
  rcases suf with ⟨ls⟩
  show String.mk ((la ++ ['\x7b']) ++ ls) = String.mk (la ++ ('\x7b' :: ls))
  rw [List.append_assoc]
  rfl

/-- Claim C10: an opening brace never followed by a closing brace opens
no candidate block — extraction of `pre ++ "\x7b" ++ suf` with no
closing brace in `suf` behaves exactly as extraction of `pre`, with the
trailing text carried through verbatim in the cleaned output and no
extra write or diagnostic; and a closing brace seen while not inside a
block is ignored — on text with no opening brace, extraction is the
identity even when closing braces are present. -/
theorem claim_C10_unclosed_brace_ignored :
    (∀ (pre suf : String) (fs : FS), '\x7d' ∉ suf.data →
      HandleFileCreationString (pre ++ "\x7b" ++ suf) fs =
        (HandleFileCreationString pre fs).map
          (fun r => (r.1 ++ "\x7b" ++ suf, r.2.1, r.2.2))) ∧
    (∀ (s : String) (fs : FS), '\x7b' ∉ s.data →
      HandleFileCreationString s fs = Except.ok (s, fs, [])) := by
  constructor
  · intro pre suf fs hsuf
    have hnoc : '\x7d' ∉ ('\x7b' :: suf.data) := by
      intro hm
      rcases List.mem_cons.mp hm with h | h
      · exact absurd h (by decide)
      · exact hsuf h
    have hdata : (pre ++ "\x7b" ++ suf).data = pre.data ++ ('\x7b' :: suf.data) := by
      rw [append_brace_suf]
    have hpairs : ScanPairs (pre ++ "\x7b" ++ suf) = ScanPairs pre := by
      rw [ScanPairs, hdata, scanAux_append, scanAux_no_close _ hnoc, List.append_nil]
      rfl
    have hblocks : ScanBlocks (pre ++ "\x7b" ++ suf) = ScanBlocks pre := by
      rw [ScanBlocks, ScanBlocks, hpairs]
      apply List.map_eq_map_iff.mpr
      intro p hp
      obtain ⟨h1, h2, _, _, _⟩ := scanPairs_sound pre p hp
      rw [hdata, sliceIncl_append pre.data _ p.1 p.2 (le_of_lt h1) h2]
    have hscrub : (ScanBlocks pre).foldl (fun acc b => pyReplace acc b)
        (pre ++ "\x7b" ++ suf) =
        ((ScanBlocks pre).foldl (fun acc b => pyReplace acc b) pre) ++ "\x7b" ++ suf := by
      rw [append_brace_suf pre suf]
      have hfold := foldl_pyReplace_append ('\x7b' :: suf.data) hnoc (ScanBlocks pre)
        pre.data (scanBlocks_getLast pre)
      rw [string_mk_data] at hfold
      rw [hfold, append_brace_suf]
    rw [HandleFileCreationString, HandleFileCreationString, hblocks]
    cases hpb : processBlocks (ScanBlocks pre) fs with
    | error err => rfl
    | ok v =>
      obtain ⟨fs1, evs⟩ := v
      show Except.ok ((ScanBlocks pre).foldl (fun acc b => pyReplace acc b)
          (pre ++ "\x7b" ++ suf), fs1, evs) = _
      rw [hscrub]
      rfl
  · intro s fs h
    exact (handle_no_open s fs h).2

/-- Witness for claim C10: a trailing unclosed brace passes through, and
a stray closing brace is ignored. -/
theorem claim_C10_witness :
    HandleFileCreationString ("ab" ++ "\x7b" ++ "cd") (FS.mk []) =
      Except.ok ("ab" ++ "\x7b" ++ "cd", FS.mk [], []) ∧
    HandleFileCreationString ("x\x7dy") (FS.mk []) =
      Except.ok ("x\x7dy", FS.mk [], []) := by
  have h := claim_C10_unclosed_brace_ignored
  refine ⟨?_, h.2 ("x\x7dy") (FS.mk []) (by decide)⟩
  rw [h.1 ("ab") ("cd") (FS.mk []) (by decide)]
  rfl
